import Mathlib

set_option maxRecDepth 8000

/-!
Verification development for the precision_eval repository's tool-schema
normalization and validation pipeline.

The Python sources are shallowly embedded over `List Char` (text), a `JsonVal`
tree (parsed JSON / Python literal values), and explicit oracle parameters for
the results of third-party library calls (`json.loads`, `ast.literal_eval`,
`jsonschema.Draft7Validator.iter_errors`) that are not part of the repository.
Each definition is translated from the named source function; definitions
named `claim...` or `spec...` instead follow the specification's words and are
compared with the source embeddings.
-/

/-! ## Character helpers

Quote, backslash and brace characters are written through `Char.ofNat` so the
source text of this file stays free of stray delimiter characters. -/

def sqC : Char := Char.ofNat 39

def dqC : Char := Char.ofNat 34

def bslC : Char := Char.ofNat 92

def obrC : Char := Char.ofNat 123

def cbrC : Char := Char.ofNat 125

/-- ASCII whitespace class used by Python's regex `\s` and `str.strip` on the
ASCII inputs this pipeline handles. -/
def isWsChar (c : Char) : Bool :=
  c == ' ' || c == '\t' || c == '\n' || c == '\r' || c == Char.ofNat 11 || c == Char.ofNat 12

def isQuoteChar (c : Char) : Bool := c == dqC || c == sqC

/-- Word-class characters of the regex `\w`, restricted to ASCII. -/
def isWordChar (c : Char) : Bool := c.isAlphanum || c == '_'

/-- Length of the leading whitespace run, the extent a greedy regex `\s*`
consumes. -/
def countWs : List Char → Nat
  | [] => 0
  | c :: rest => if isWsChar c then countWs rest + 1 else 0

/-- Python `str.strip`: drop whitespace from both ends. -/
def stripWs (cs : List Char) : List Char :=
  ((cs.dropWhile isWsChar).reverse.dropWhile isWsChar).reverse

/-- Python `str.rstrip(',')`: drop trailing comma characters. -/
def rstripCommas (cs : List Char) : List Char :=
  (cs.reverse.dropWhile (fun c => c == ',')).reverse

/-- Index of the first occurrence of a character at or after a start index,
Python `str.find(ch, start)` with `-1` rendered as `none`. -/
def findFromAux : List Char → Char → Nat → Option Nat
  | [], _, _ => none
  | c :: rest, t, i => if c = t then some i else findFromAux rest t (i + 1)

def findFrom (text : List Char) (t : Char) (start : Nat) : Option Nat :=
  findFromAux (text.drop start) t start

/-- Python `str.rfind(ch)`: index of the last occurrence. -/
def rfindChar (cs : List Char) (t : Char) : Option Nat :=
  match findFromAux cs.reverse t 0 with
  | none => none
  | some j => some (cs.length - 1 - j)

/-- Python `str.find(sub)`: index of the first occurrence of a substring. -/
def strFindAux : List Char → List Char → Nat → Option Nat
  | [], pat, i => if pat = [] then some i else none
  | c :: rest, pat, i =>
    if pat.isPrefixOf (c :: rest) then some i else strFindAux rest pat (i + 1)

def strFind (text pat : List Char) : Option Nat := strFindAux text pat 0

/-! ## JSON value model

`JsonVal` stands for the values `json.loads` / `ast.literal_eval` produce;
object fields keep insertion order as Python dicts do. -/

inductive JsonVal : Type where
  | null : JsonVal
  | bool : Bool → JsonVal
  | num : Int → JsonVal
  | str : String → JsonVal
  | arr : List JsonVal → JsonVal
  | obj : List (String × JsonVal) → JsonVal

/-- Truthy-dict test used by `normalize_tool_schema.parse_schema_string`:
Python `result and isinstance(result, dict)`. -/
def isNonEmptyDict : JsonVal → Bool
  | JsonVal.obj (_ :: _) => true
  | _ => false

/-- Test for the empty mapping. -/
def isEmptyDict : JsonVal → Bool
  | JsonVal.obj [] => true
  | _ => false

/-! ## Validator embedding (src/schema_validation_accuracy.py, validate_against_schema)

The draft-7 engine `jsonschema` is a third-party library: its outcome is an
oracle parameter, `Except` carrying either the raised exception's message or
the list of violations (each with its validating keyword and rendered
message). The Python code stores violation categories in a `set` and takes
`list(error_types)[0]`; the set's enumeration order is not determined by the
source, so it is modelled by a choice function `pick` whose only constraint
(imposed in theorems, not here) is that it returns a member of the list it is
given. -/

inductive ErrKind : Type where
  | required_property_missing
  | additional_properties
  | type_mismatch
  | enum_validation
  | constraint_violation
  | pattern_mismatch
  | schema_undefined
  | tool_not_found
  | other_validation_error
  | validation_exception
  | unknown
deriving DecidableEq, Repr

/-- Classification of a violation's validating keyword, lines 281 to 294 of
src/schema_validation_accuracy.py. -/
def classifyValidator (kw : String) : ErrKind :=
  if kw = "required" then ErrKind.required_property_missing
  else if kw = "additionalProperties" then ErrKind.additional_properties
  else if kw = "type" then ErrKind.type_mismatch
  else if kw = "enum" then ErrKind.enum_validation
  else if kw = "minLength" ∨ kw = "maxLength" ∨ kw = "minimum" ∨ kw = "maximum" then
    ErrKind.constraint_violation
  else if kw = "pattern" then ErrKind.pattern_mismatch
  else ErrKind.other_validation_error

/-- One violation as the jsonschema library reports it: the validating keyword
and the message already rendered with its path. -/
structure VErr : Type where
  validator : String
  message : String
deriving DecidableEq, Repr

/-- Embedding of `validate_against_schema`. `pick` models the unspecified
enumeration order of the Python category set; `outcome` is the library
oracle. -/
def validate_against_schema (pick : List ErrKind → ErrKind) (schema : Option JsonVal)
    (outcome : Except String (List VErr)) : Bool × Option String × Option ErrKind :=
  match schema with
  | none => (false, some "Schema未定义或解析失败", some ErrKind.schema_undefined)
  | some _ =>
    match outcome with
    | Except.error e => (false, some e, some ErrKind.validation_exception)
    | Except.ok errs =>
      match errs with
      | [] => (true, none, none)
      | _ =>
        let kinds := (errs.map (fun e => classifyValidator e.validator)).dedup
        let primary := match kinds with
          | [] => ErrKind.unknown
          | _ => pick kinds
        (false, some (String.intercalate "; " (errs.map VErr.message)), some primary)

/-- One concrete admissible enumeration order for a Python set: the element the
insertion-ordered content list ends with. -/
def pickLastKind (l : List ErrKind) : ErrKind := l.getLastD ErrKind.unknown

/-- One concrete admissible enumeration order agreeing with insertion order. -/
def pickHeadKind (l : List ErrKind) : ErrKind := l.headD ErrKind.unknown

/-! ## Per-call verdict (src/schema_validation_accuracy.py, lines 419 to 461)

The per-call branch of `calculate_schema_validation_accuracy`: an unknown tool
name yields a fixed failed verdict without validating; otherwise both schemas
are validated. -/

structure ToolSchemas : Type where
  input_schema : Option JsonVal
  output_schema : Option JsonVal

def lookupTool : List (String × ToolSchemas) → String → Option ToolSchemas
  | [], _ => none
  | (k, v) :: rest, name => if k = name then some v else lookupTool rest name

structure CallDetail : Type where
  tool_name : String
  action_valid : Bool
  observation_valid : Bool
  action_error : Option String
  observation_error : Option String
  action_error_type : Option ErrKind
  observation_error_type : Option ErrKind
  reason : Option String

def processCall (catalog : List (String × ToolSchemas)) (tool : String)
    (pick : List ErrKind → ErrKind)
    (argsOutcome obsOutcome : Except String (List VErr)) : CallDetail :=
  match lookupTool catalog tool with
  | none =>
    { tool_name := tool
      action_valid := false
      observation_valid := false
      action_error := none
      observation_error := none
      action_error_type := some ErrKind.tool_not_found
      observation_error_type := some ErrKind.tool_not_found
      reason := some "工具不存在于schema中" }
  | some ts =>
    let a := validate_against_schema pick ts.input_schema argsOutcome
    let o := validate_against_schema pick ts.output_schema obsOutcome
    { tool_name := tool
      action_valid := a.1
      observation_valid := o.1
      action_error := if a.1 then none else a.2.1
      observation_error := if o.1 then none else o.2.1
      action_error_type := if a.1 then none else a.2.2
      observation_error_type := if o.1 then none else o.2.2
      reason := none }

/-! ## Schema completion (src/schema_validation_accuracy.py, complete_output_schema)

The argument is the parsed schema in the function's annotated domain, a dict
(association list with Python-dict key uniqueness and insertion order) or
null. -/

def complete_output_schema (raw_schema : Option (List (String × JsonVal))) :
    Option (List (String × JsonVal)) :=
  match raw_schema with
  | none => none
  | some raw =>
    if (raw.map Prod.fst).contains "type" then some raw
    else
      some [("type", JsonVal.str "object"),
            ("properties", JsonVal.obj raw),
            ("required", JsonVal.arr ((raw.map Prod.fst).map JsonVal.str)),
            ("additionalProperties", JsonVal.bool false)]

/-! ## Multi-strategy parsers

Strategy computations end in `json.loads` / `ast.literal_eval`, so each
strategy's outcome is an oracle parameter (`Except.error` for a raised
exception). `parse_schema_string` embeds the copy in
src/schema_validation_accuracy.py (three strategies, each successful result
returned unconditionally); `parse_schema_string_nt` embeds the copy in
src/normalize_tool_schema.py (four strategies, each guarded by Python
`result and isinstance(result, dict)`). -/

def parse_schema_string (r1 r2 r3 : Except Unit JsonVal) : Option JsonVal :=
  match r1 with
  | Except.ok v => some v
  | Except.error _ =>
    match r2 with
    | Except.ok v => some v
    | Except.error _ =>
      match r3 with
      | Except.ok v => some v
      | Except.error _ => none

def parse_schema_string_nt (schema_str : List Char) (r1 r2 r3 r4 : Except Unit JsonVal) :
    Option JsonVal :=
  if schema_str = [] then none
  else if stripWs schema_str = [] then none
  else
    match r1 with
    | Except.ok v =>
      if isNonEmptyDict v then some v
      else
        match r2 with
        | Except.ok v2 =>
          if isNonEmptyDict v2 then some v2
          else
            match r3 with
            | Except.ok v3 =>
              if isNonEmptyDict v3 then some v3
              else
                match r4 with
                | Except.ok v4 => if isNonEmptyDict v4 then some v4 else none
                | Except.error _ => none
            | Except.error _ =>
              match r4 with
              | Except.ok v4 => if isNonEmptyDict v4 then some v4 else none
              | Except.error _ => none
        | Except.error _ =>
          match r3 with
          | Except.ok v3 =>
            if isNonEmptyDict v3 then some v3
            else
              match r4 with
              | Except.ok v4 => if isNonEmptyDict v4 then some v4 else none
              | Except.error _ => none
          | Except.error _ =>
            match r4 with
            | Except.ok v4 => if isNonEmptyDict v4 then some v4 else none
            | Except.error _ => none
    | Except.error _ =>
      match r2 with
      | Except.ok v2 =>
        if isNonEmptyDict v2 then some v2
        else
          match r3 with
          | Except.ok v3 =>
            if isNonEmptyDict v3 then some v3
            else
              match r4 with
              | Except.ok v4 => if isNonEmptyDict v4 then some v4 else none
              | Except.error _ => none
          | Except.error _ =>
            match r4 with
            | Except.ok v4 => if isNonEmptyDict v4 then some v4 else none
            | Except.error _ => none
      | Except.error _ =>
        match r3 with
        | Except.ok v3 =>
          if isNonEmptyDict v3 then some v3
          else
            match r4 with
            | Except.ok v4 => if isNonEmptyDict v4 then some v4 else none
            | Except.error _ => none
        | Except.error _ =>
          match r4 with
          | Except.ok v4 => if isNonEmptyDict v4 then some v4 else none
          | Except.error _ => none

/-- Specification-level selection written from the spec's words in section 4.4:
accept the first strategy outcome that is a mapping with at least one key. -/
def firstNonEmptyDict : List (Except Unit JsonVal) → Option JsonVal
  | [] => none
  | Except.ok v :: rest => if isNonEmptyDict v then some v else firstNonEmptyDict rest
  | Except.error _ :: rest => firstNonEmptyDict rest

/-- Specification-level fall-through written from the claim's words: a
strategy result equal to the empty mapping falls through to the next strategy;
the empty mapping may be returned only as an explicit last resort when every
strategy produced only the empty mapping or failed. -/
def claimFallThrough (rs : List (Except Unit JsonVal)) : Option JsonVal :=
  match rs.filterMap (fun r =>
      match r with
      | Except.ok v => if isEmptyDict v then none else some v
      | Except.error _ => none) with
  | v :: _ => some v
  | [] =>
    if rs.any (fun r =>
        match r with
        | Except.ok v => isEmptyDict v
        | Except.error _ => false) then
      some (JsonVal.obj [])
    else none

/-! ## Parameter similarity (src/duplicate_call_rate.py, calculate_param_similarity)

Argument dicts are association lists; a value is represented by its Python
`str` image, the only view the source compares. The float division of two
small counts is modelled exactly in the rationals. -/

def sameVal (args1 args2 : List (String × String)) (k : String) : Bool :=
  match List.lookup k args1, List.lookup k args2 with
  | some v1, some v2 => v1 == v2
  | _, _ => false

def calculate_param_similarity (args1 args2 : List (String × String)) : ℚ :=
  if args1 = [] ∧ args2 = [] then 1
  else if args1 = [] ∨ args2 = [] then 0
  else
    let all_keys := (args1.map Prod.fst ++ args2.map Prod.fst).dedup
    if all_keys = [] then 1
    else
      ((all_keys.filter (fun k => sameVal args1 args2 k)).length : ℚ) /
        (all_keys.length : ℚ)

/-! ## Quote normalization (src/normalize_tool_schema.py, normalize_quotes)

Single-quoted strings are re-lexed into double-quoted strings; escape pairs
are copied through; the state is the quote character that opened the current
string. The same loop appears inline as the quote-conversion step of
`fix_json_string` in both source files. -/

def nqAux : List Char → Option Char → List Char
  | [], _ => []
  | c :: rest, none =>
    if c = dqC then dqC :: nqAux rest (some dqC)
    else if c = sqC then dqC :: nqAux rest (some sqC)
    else c :: nqAux rest none
  | c :: rest, some q =>
    if c = bslC then
      match rest with
      | d :: rest2 => bslC :: d :: nqAux rest2 (some q)
      | [] => [bslC]
    else if c = q then dqC :: nqAux rest none
    else c :: nqAux rest (some q)

def normalize_quotes (text : List Char) : List Char := nqAux text none

/-! ## Brace/string scanner (src/schema_validation_accuracy.py, extract_balanced_braces)

The loop walks from the first opening brace found at or after `start_pos`,
counting depth outside string literals, a backslash suppressing the next
character, and returns the index of the closing brace that brings the count
to zero. -/

def ebbLoop : List Char → Int → Option Char → Bool → Nat → Option Nat
  | [], _, _, _, _ => none
  | c :: rest, count, inStr, esc, i =>
    if esc then ebbLoop rest count inStr false (i + 1)
    else if c = bslC then ebbLoop rest count inStr true (i + 1)
    else if (c = dqC ∨ c = sqC) ∧ inStr = none then ebbLoop rest count (some c) false (i + 1)
    else if some c = inStr then ebbLoop rest count none false (i + 1)
    else if inStr = none then
      if c = obrC then ebbLoop rest (count + 1) none false (i + 1)
      else if c = cbrC then
        if count - 1 = 0 then some i
        else ebbLoop rest (count - 1) none false (i + 1)
      else ebbLoop rest count none false (i + 1)
    else ebbLoop rest count inStr false (i + 1)

def extract_balanced_braces (text : List Char) (start_pos : Nat) : Option (List Char) :=
  match findFrom text obrC start_pos with
  | none => none
  | some b =>
    match ebbLoop (text.drop b) 0 none false b with
    | none => none
    | some j => some ((text.take (j + 1)).drop b)

/-! ## Brace/string scanner, second copy (src/normalize_tool_schema.py, extract_balanced_braces)

This version first applies `normalize_quotes` when asked to and then tracks
the string state as a toggle on the double quote only. -/

def ebbLoopD : List Char → Int → Bool → Bool → Nat → Option Nat
  | [], _, _, _, _ => none
  | c :: rest, count, inStr, esc, i =>
    if esc then ebbLoopD rest count inStr false (i + 1)
    else if c = bslC then ebbLoopD rest count inStr true (i + 1)
    else if c = dqC then ebbLoopD rest count (!inStr) false (i + 1)
    else if !inStr then
      if c = obrC then ebbLoopD rest (count + 1) inStr false (i + 1)
      else if c = cbrC then
        if count - 1 = 0 then some i
        else ebbLoopD rest (count - 1) inStr false (i + 1)
      else ebbLoopD rest count inStr false (i + 1)
    else ebbLoopD rest count inStr false (i + 1)

def extract_balanced_braces_nt (text : List Char) (start_pos : Nat) (normalize : Bool) :
    Option (List Char) :=
  let text := if normalize then normalize_quotes text else text
  match findFrom text obrC start_pos with
  | none => none
  | some b =>
    match ebbLoopD (text.drop b) 0 false false b with
    | none => none
    | some j => some ((text.take (j + 1)).drop b)

/-! ## Scanner specification

State machine written from the specification's words in section 4.1: depth is
tracked only outside string literals, a quote character toggles the in-string
state, a backslash suppresses the lexical role of the following character.
The scanner's answer is characterized as the first index at which an
unescaped closing brace outside any string brings the depth from one back to
zero. -/

structure ScanSt : Type where
  count : Int
  inStr : Option Char
  esc : Bool
deriving DecidableEq, Repr

def initScanSt : ScanSt := { count := 0, inStr := none, esc := false }

def scanStep (st : ScanSt) (c : Char) : ScanSt :=
  if st.esc then { st with esc := false }
  else if c = bslC then { st with esc := true }
  else
    match st.inStr with
    | some q => if c = q then { st with inStr := none } else st
    | none =>
      if c = dqC ∨ c = sqC then { st with inStr := some c }
      else if c = obrC then { st with count := st.count + 1 }
      else if c = cbrC then { st with count := st.count - 1 }
      else st

def stateAfter (st : ScanSt) (cs : List Char) : ScanSt := cs.foldl scanStep st

/-- The next character closes the balanced span: it is an unescaped closing
brace read outside any string literal while the depth is one. -/
def closesHere (st : ScanSt) (c : Char) : Bool :=
  !st.esc && st.inStr.isNone && (c == cbrC) && (st.count == 1)

def specClose : List Char → ScanSt → Nat → Option Nat
  | [], _, _ => none
  | c :: rest, st, i => if closesHere st c then some i else specClose rest (scanStep st c) (i + 1)

def firstCloseOffset (cs : List Char) : Option Nat := specClose cs initScanSt 0

/-- Whether the suffix of `cs` at offset `k` starts with a character that
closes the balanced span opened at the head of `cs`. -/
def closesAtB (st : ScanSt) (cs : List Char) (k : Nat) : Bool :=
  match cs.drop k with
  | [] => false
  | c :: _ => closesHere (stateAfter st (cs.take k)) c

/-- Scanner contract written from the specification's words: find the first
opening brace at or after the offset, then cut the span ending at the first
position where the depth returns to zero. -/
def specScan (text : List Char) (start : Nat) : Option (List Char) :=
  match findFrom text obrC start with
  | none => none
  | some b =>
    match firstCloseOffset (text.drop b) with
    | none => none
    | some k => some ((text.drop b).take (k + 1))

/-- Concrete input of the scanner-correctness sentence of the specification. -/
def exScanner : List Char := ("\x7b\"a\": \"\x7d\", \"b\": 1\x7d").toList

/-! ## Generic leftmost non-overlapping substitution

`re.sub` semantics for the concrete patterns of the pipeline: walk the text,
at each position try the pattern; on a match emit the replacement and resume
after the matched span; otherwise keep the character. A matcher returns the
replacement together with the matched length minus one, so a match always
consumes at least one character. Fuel equal to the text length bounds the
recursion; one unit is spent per step, and each step consumes at least one
character, so the fuel never runs out when it starts at the text length. -/

def subScan (tryM : List Char → Option (List Char × Nat)) : Nat → List Char → List Char
  | _, [] => []
  | 0, cs => cs
  | fuel + 1, c :: rest =>
    match tryM (c :: rest) with
    | some (r, k) => r ++ subScan tryM fuel (rest.drop k)
    | none => c :: subScan tryM fuel rest

def scanHas (tryM : List Char → Option (List Char × Nat)) : Nat → List Char → Bool
  | _, [] => false
  | 0, _ => false
  | fuel + 1, c :: rest => (tryM (c :: rest)).isSome || scanHas tryM fuel rest

def runSub (tryM : List Char → Option (List Char × Nat)) (cs : List Char) : List Char :=
  subScan tryM cs.length cs

def hasMatch (tryM : List Char → Option (List Char × Nat)) (cs : List Char) : Bool :=
  scanHas tryM cs.length cs

/-! ## Bracket-mismatch repair (src/normalize_tool_schema.py, fix_bracket_mismatch)

Pattern: a quote character, optional whitespace, a comma, optional whitespace,
an opening brace; replaced by the quote, a closing brace, the comma and the
opening brace (the whitespace is dropped, as the replacement template drops
it). -/

def tryBracket (cs : List Char) : Option (List Char × Nat) :=
  match cs with
  | [] => none
  | q :: rest =>
    if isQuoteChar q then
      let n1 := countWs rest
      match rest.drop n1 with
      | c1 :: rest2 =>
        if c1 = ',' then
          let n2 := countWs rest2
          match rest2.drop n2 with
          | c2 :: _ =>
            if c2 = obrC then some ([q, cbrC, ',', obrC], n1 + n2 + 2) else none
          | [] => none
        else none
      | [] => none
    else none

def fix_bracket_mismatch (s : List Char) : List Char := runSub tryBracket s

/-! ## Trailing-comma removal (step of fix_json_string)

Pattern: a comma, optional whitespace, a closing bracket or brace; replaced by
the bracket alone. -/

def tryTrailingComma (cs : List Char) : Option (List Char × Nat) :=
  match cs with
  | [] => none
  | c :: rest =>
    if c = ',' then
      let n := countWs rest
      match rest.drop n with
      | b :: _ => if b = ']' ∨ b = cbrC then some ([b], n + 1) else none
      | [] => none
    else none

def subTrailingCommas (s : List Char) : List Char := runSub tryTrailingComma s

/-! ## Unquoted-key repair (step of fix_json_string)

Pattern: an opening brace or comma, optional whitespace, an identifier,
optional whitespace, a colon; the identifier gets wrapped in double quotes and
the whitespace is dropped by the replacement template. -/

def isIdentStartChar (c : Char) : Bool := c.isAlpha || c == '_'

def isIdentChar (c : Char) : Bool := c.isAlphanum || c == '_'

def takeIdent (cs : List Char) : Option (List Char × Nat) :=
  match cs with
  | [] => none
  | c :: rest =>
    if isIdentStartChar c then
      let more := rest.takeWhile isIdentChar
      some (c :: more, more.length + 1)
    else none

def tryUnquotedKey (cs : List Char) : Option (List Char × Nat) :=
  match cs with
  | [] => none
  | c0 :: rest =>
    if c0 = obrC ∨ c0 = ',' then
      let n1 := countWs rest
      match takeIdent (rest.drop n1) with
      | some (ident, identLen) =>
        let rest2 := (rest.drop n1).drop identLen
        let n2 := countWs rest2
        match rest2.drop n2 with
        | c1 :: _ =>
          if c1 = ':' then
            some ([c0, dqC] ++ ident ++ [dqC, ':'], n1 + identLen + n2 + 1)
          else none
        | [] => none
      | none => none
    else none

def subUnquotedKeys (s : List Char) : List Char := runSub tryUnquotedKey s

/-! ## Whole-word literal replacement (steps of fix_json_string)

Python `re.sub` with a word-bounded literal word: the word matches when the
previous character (if any) and the following character (if any) are not word
characters. The scanner carries the previous character of the original text. -/

def wordScan (w repl : List Char) : Nat → Option Char → List Char → List Char
  | _, _, [] => []
  | 0, _, cs => cs
  | fuel + 1, prev, c :: rest =>
    let prevOk := match prev with
      | none => true
      | some p => !isWordChar p
    let afterOk := match (c :: rest).drop w.length with
      | [] => true
      | d :: _ => !isWordChar d
    if prevOk && w.isPrefixOf (c :: rest) && afterOk then
      repl ++ wordScan w repl fuel (((c :: rest).drop (w.length - 1)).head?) ((c :: rest).drop w.length)
    else
      c :: wordScan w repl fuel (some c) rest

def subWord (w repl s : List Char) : List Char := wordScan w repl s.length none s

/-! ## Enum-value quoting (src/normalize_tool_schema.py, fix_enum_values)

Pattern (case-insensitive on the key): a quote, the word enum, a quote,
optional whitespace, a colon, optional whitespace, an opening bracket, at
least one character other than a closing bracket, a closing bracket. The
bracket's content is split on commas outside string literals, each item is
stripped and, when it does not already start with a quote, wrapped in double
quotes; empty items are dropped and the items are joined with commas. -/

def enumSplitAux : List Char → Option Char → List Char → List (List Char) → List (List Char)
  | [], _, current, items => if current ≠ [] then items ++ [stripWs current] else items
  | c :: rest, none, current, items =>
    if isQuoteChar c then enumSplitAux rest (some c) (current ++ [c]) items
    else if c = ',' then
      if current ≠ [] then enumSplitAux rest none [] (items ++ [stripWs current])
      else enumSplitAux rest none current items
    else enumSplitAux rest none (current ++ [c]) items
  | c :: rest, some q, current, items =>
    enumSplitAux rest (if c = q then none else some q) (current ++ [c]) items

def quoteEnumItems (items : List (List Char)) : List (List Char) :=
  items.filterMap (fun item =>
    let item := stripWs item
    if item = [] then none
    else
      match item with
      | c :: _ => if isQuoteChar c then some item else some ([dqC] ++ item ++ [dqC])
      | [] => none)

def joinComma (ls : List (List Char)) : List Char := (ls.intersperse [',']).flatten

def tryEnum (cs : List Char) : Option (List Char × Nat) :=
  match cs with
  | [] => none
  | q1 :: rest =>
    if isQuoteChar q1 then
      let four := rest.take 4
      if four.length = 4 ∧ four.map Char.toLower = ("enum").toList then
        match rest.drop 4 with
        | q2 :: rest2 =>
          if isQuoteChar q2 then
            let n1 := countWs rest2
            match rest2.drop n1 with
            | c1 :: rest3 =>
              if c1 = ':' then
                let n2 := countWs rest3
                match rest3.drop n2 with
                | c2 :: rest4 =>
                  if c2 = '[' then
                    let content := rest4.takeWhile (fun c => !(c == ']'))
                    if content ≠ [] ∧ content.length < rest4.length then
                      let g1 := q1 :: four ++ [q2] ++ rest2.take n1 ++ [':'] ++
                        rest3.take n2 ++ ['[']
                      let fixedItems := joinComma (quoteEnumItems (enumSplitAux content none [] []))
                      some (g1 ++ fixedItems ++ [']'],
                        4 + 1 + n1 + 1 + n2 + 1 + content.length + 1)
                    else none
                  else none
                | [] => none
              else none
            | [] => none
          else none
        | [] => none
      else none
    else none

def fix_enum_values (s : List Char) : List Char := runSub tryEnum s

/-! ## Properties-closure repair (src/normalize_tool_schema.py, fix_properties_closure)

Search for a quoted properties key followed by a colon and an opening brace;
then walk from that brace with the same string/escape tracking as the
scanner. A closing brace at depth zero means the properties object closes
cleanly and the text is returned unchanged; a comma at depth one followed
(after whitespace) by a quoted top-level keyword triggers the insertion of a
closing brace right after the last recorded child closing position. -/

def tryPropsPattern (cs : List Char) : Option Nat :=
  match cs with
  | [] => none
  | q1 :: rest =>
    if isQuoteChar q1 then
      if ("properties").toList.isPrefixOf rest then
        match rest.drop 10 with
        | q2 :: rest2 =>
          if isQuoteChar q2 then
            let n1 := countWs rest2
            match rest2.drop n1 with
            | c1 :: rest3 =>
              if c1 = ':' then
                let n2 := countWs rest3
                match rest3.drop n2 with
                | c2 :: _ => if c2 = obrC then some (1 + 10 + 1 + n1 + 1 + n2) else none
                | [] => none
              else none
            | [] => none
          else none
        | [] => none
      else none
    else none

def findPropsBrace : List Char → Nat → Option Nat
  | [], _ => none
  | c :: rest, i =>
    match tryPropsPattern (c :: rest) with
    | some off => some (i + off)
    | none => findPropsBrace rest (i + 1)

/-- Python startswith test of the source: a double-quoted keyword must carry
its closing quote, a single-quoted keyword is matched without one. -/
def startsTopKey (cs : List Char) (key : List Char) : Bool :=
  ([dqC] ++ key ++ [dqC]).isPrefixOf cs || ([sqC] ++ key).isPrefixOf cs

def anyTopKey (cs : List Char) : Bool :=
  startsTopKey cs ("required").toList || startsTopKey cs ("type").toList ||
  startsTopKey cs ("additionalProperties").toList || startsTopKey cs ("description").toList

def propsLoop : List Char → List Char → Nat → Int → Option Char → Bool → Option Nat → List Char
  | [], s, _, _, _, _, _ => s
  | c :: rest, s, i, depth, inStr, esc, lvc =>
    if esc then propsLoop rest s (i + 1) depth inStr false lvc
    else if c = bslC then propsLoop rest s (i + 1) depth inStr true lvc
    else if (c = dqC ∨ c = sqC) ∧ inStr = none then
      propsLoop rest s (i + 1) depth (some c) false lvc
    else if some c = inStr then propsLoop rest s (i + 1) depth none false lvc
    else if inStr = none then
      if c = obrC then propsLoop rest s (i + 1) (depth + 1) none false lvc
      else if c = cbrC then
        if depth - 1 = 0 then s
        else if depth - 1 = 1 then propsLoop rest s (i + 1) (depth - 1) none false (some i)
        else propsLoop rest s (i + 1) (depth - 1) none false lvc
      else if c = ',' ∧ depth = 1 then
        if anyTopKey (rest.dropWhile isWsChar) then
          match lvc with
          | some p => s.take (p + 1) ++ cbrC :: s.drop (p + 1)
          | none => s
        else propsLoop rest s (i + 1) depth none false lvc
      else propsLoop rest s (i + 1) depth none false lvc
    else propsLoop rest s (i + 1) depth inStr false lvc

def fix_properties_closure (s : List Char) : List Char :=
  match findPropsBrace s 0 with
  | none => s
  | some p => propsLoop (s.drop p) s p 0 none false none

/-! ## Combinator-array repair (src/normalize_tool_schema.py, fix_anyof_structure)

Pattern (case-insensitive on the key, the two quotes bound by a
backreference): a quote, one of the keys anyof / oneof / allof, the same
quote, optional whitespace, a colon, optional whitespace, an opening bracket,
then lazily the shortest nonempty run of characters other than a closing
bracket up to a closing bracket or the end of the text. The callback repairs
comma boundaries inside the array, hoists the last match of each trailing
modifier key (default, title, description) out of the array, strips trailing
commas and whitespace, deletes surplus closing braces from the right, and
reassembles the span with the key's original casing. -/

def tryPropMatch (prop : List Char) (cs : List Char) : Option Nat :=
  match cs with
  | [] => none
  | c0 :: rest =>
    if c0 = ',' then
      let n1 := countWs rest
      match rest.drop n1 with
      | q :: rest2 =>
        if isQuoteChar q then
          if prop.isPrefixOf rest2 then
            match rest2.drop prop.length with
            | q2 :: rest3 =>
              if q2 = q then
                let n2 := countWs rest3
                match rest3.drop n2 with
                | c1 :: rest4 =>
                  if c1 = ':' then
                    let value := rest4.takeWhile (fun c => !(c == ',' || c == ']' || c == cbrC))
                    if value ≠ [] then
                      some (1 + n1 + 1 + prop.length + 1 + n2 + 1 + value.length)
                    else none
                  else none
                | [] => none
              else none
            | [] => none
          else none
        else none
      | [] => none
    else none

def findLastProp (prop : List Char) : Nat → Nat → List Char → Option (Nat × Nat) → Option (Nat × Nat)
  | _, _, [], acc => acc
  | 0, _, _, acc => acc
  | fuel + 1, i, c :: rest, acc =>
    match tryPropMatch prop (c :: rest) with
    | some len => findLastProp prop fuel (i + len) ((c :: rest).drop len) (some (i, len))
    | none => findLastProp prop fuel (i + 1) rest acc

/-- Remove the last finditer match of a trailing modifier key from the text
and return the removed span alongside. -/
def extractProp (prop : List Char) (remaining : List Char) : List Char × List Char :=
  match findLastProp prop remaining.length 0 remaining none with
  | none => (remaining, [])
  | some (st, len) =>
    (remaining.take st ++ remaining.drop (st + len), (remaining.drop st).take len)

def removeBraces : Nat → List Char → List Char
  | 0, cs => cs
  | n + 1, cs =>
    match rfindChar cs cbrC with
    | none => removeBraces n cs
    | some i => removeBraces n (cs.take i ++ cs.drop (i + 1))

def fixArray (q : Char) (key : List Char) (content : List Char) : List Char :=
  let fixed := runSub tryBracket content
  let r1 := extractProp ("default").toList fixed
  let r2 := extractProp ("title").toList r1.1
  let r3 := extractProp ("description").toList r2.1
  let outer := r1.2 ++ r2.2 ++ r3.2
  let remaining := stripWs (rstripCommas r3.1)
  let openCount := remaining.count obrC
  let closeCount := remaining.count cbrC
  let remaining := removeBraces (closeCount - openCount) remaining
  q :: key ++ [q, ':', '['] ++ remaining ++ [']'] ++ outer

def tryAnyof (cs : List Char) : Option (List Char × Nat) :=
  match cs with
  | [] => none
  | q1 :: rest =>
    if isQuoteChar q1 then
      let five := rest.take 5
      if five.length = 5 ∧ (five.map Char.toLower = ("anyof").toList ∨
          five.map Char.toLower = ("oneof").toList ∨
          five.map Char.toLower = ("allof").toList) then
        match rest.drop 5 with
        | q2 :: rest2 =>
          if q2 = q1 then
            let n1 := countWs rest2
            match rest2.drop n1 with
            | c1 :: rest3 =>
              if c1 = ':' then
                let n2 := countWs rest3
                match rest3.drop n2 with
                | c2 :: rest4 =>
                  if c2 = '[' then
                    let content := rest4.takeWhile (fun c => !(c == ']'))
                    if content = [] then none
                    else
                      let closeLen := if content.length < rest4.length then 1 else 0
                      some (fixArray q1 five content,
                        5 + 1 + n1 + 1 + n2 + 1 + content.length + closeLen)
                  else none
                | [] => none
              else none
            | [] => none
          else none
        | [] => none
      else none
    else none

def fix_anyof_structure (s : List Char) : List Char := runSub tryAnyof s

/-! ## CJK punctuation replacement (src/normalize_tool_schema.py, fix_chinese_punctuation) -/

def cjkPairs : List (Char × Char) :=
  [(Char.ofNat 0xFF0C, ','), (Char.ofNat 0xFF1A, ':'), (Char.ofNat 0xFF1B, ';'),
   (Char.ofNat 0x201C, dqC), (Char.ofNat 0x201D, dqC),
   (Char.ofNat 0x2018, sqC), (Char.ofNat 0x2019, sqC),
   (Char.ofNat 0xFF08, '('), (Char.ofNat 0xFF09, ')'),
   (Char.ofNat 0x3010, '['), (Char.ofNat 0x3011, ']'),
   (Char.ofNat 0x300A, '<'), (Char.ofNat 0x300B, '>')]

def fix_chinese_punctuation (s : List Char) : List Char :=
  cjkPairs.foldl (fun acc p => acc.map (fun c => if c = p.1 then p.2 else c)) s

/-- Pointwise form of the sequential single-character replacements: each
replaced character is distinct and every replacement lands on ASCII, which no
later replacement touches. -/
def chineseChar (c : Char) : Char :=
  if c = Char.ofNat 0xFF0C then ','
  else if c = Char.ofNat 0xFF1A then ':'
  else if c = Char.ofNat 0xFF1B then ';'
  else if c = Char.ofNat 0x201C then dqC
  else if c = Char.ofNat 0x201D then dqC
  else if c = Char.ofNat 0x2018 then sqC
  else if c = Char.ofNat 0x2019 then sqC
  else if c = Char.ofNat 0xFF08 then '('
  else if c = Char.ofNat 0xFF09 then ')'
  else if c = Char.ofNat 0x3010 then '['
  else if c = Char.ofNat 0x3011 then ']'
  else if c = Char.ofNat 0x300A then '<'
  else if c = Char.ofNat 0x300B then '>'
  else c

/-! ## Full normalizer (src/normalize_tool_schema.py, fix_json_string)

The pipeline order of the source: CJK punctuation, enum quoting, properties
closure, bracket mismatch, combinator repair, unquoted keys, quote conversion
(the same loop as normalize_quotes, inlined in the source), Python literals,
trailing commas. -/

def fix_json_string (s : List Char) : List Char :=
  if s = [] then s
  else
    let s1 := fix_chinese_punctuation s
    let s2 := fix_enum_values s1
    let s3 := fix_properties_closure s2
    let s4 := fix_bracket_mismatch s3
    let s5 := fix_anyof_structure s4
    let s6 := subUnquotedKeys s5
    let s7 := nqAux s6 none
    let s8 := subWord ("None").toList ("null").toList s7
    let s9 := subWord ("True").toList ("true").toList s8
    let s10 := subWord ("False").toList ("false").toList s9
    subTrailingCommas s10

/-- Composite of the three structural repair heuristics of section 4.3, in the
order the source pipeline applies them. -/
def structural_repairs (s : List Char) : List Char :=
  fix_anyof_structure (fix_bracket_mismatch (fix_properties_closure s))

/-- Normalization of section 4.2 as the claim words it: quote normalization
followed by fix_json_string, the text transform of parsing strategy one. -/
def normalize_then_fix (s : List Char) : List Char :=
  fix_json_string (normalize_quotes s)

/-! ## Per-block catalog slice (src/schema_validation_accuracy.py, parse_tool_schema)

Lines 224 to 248: locate the Parameters and Output labels, carve each brace
span with the scanner, parse it with the multi-strategy parser (its library
calls as an oracle on the carved text) and complete only the output schema.
A parse result that is not a dict makes the Python completion call fall
outside its annotated domain; it is modelled as an absent dict here. -/

def rawFieldSchema (block : List Char) (label : List Char)
    (oracle : List Char → Except Unit JsonVal × Except Unit JsonVal × Except Unit JsonVal) :
    Option JsonVal :=
  match strFind block label with
  | none => none
  | some pos =>
    match extract_balanced_braces block pos with
    | none => none
    | some str => parse_schema_string (oracle str).1 (oracle str).2.1 (oracle str).2.2

def asDict : Option JsonVal → Option (List (String × JsonVal))
  | some (JsonVal.obj fields) => some fields
  | _ => none

def parse_tool_block (block : List Char)
    (oracle : List Char → Except Unit JsonVal × Except Unit JsonVal × Except Unit JsonVal) :
    Option JsonVal × Option (List (String × JsonVal)) :=
  (rawFieldSchema block ("Parameters:").toList oracle,
   complete_output_schema (asDict (rawFieldSchema block ("Output:").toList oracle)))

/-! ## Concrete inputs for the counterexamples -/

/-- Well-formed JSON Schema text containing a string array element directly
followed by an object element. -/
def exEnumArr : List Char := ("\x7b\"enum\": [\"a\",\x7b\"b\": 1\x7d]\x7d").toList

/-- Text on which one round of normalization creates a new trailing-comma
trigger. -/
def exCommas : List Char := (",,]").toList

/-! ## Helper lemmas -/

/-- A substitution scan with no matching position anywhere leaves the text
unchanged. -/
theorem subScan_of_no_match (tryM : List Char → Option (List Char × Nat)) :
    ∀ (fuel : Nat) (cs : List Char), cs.length ≤ fuel →
      scanHas tryM fuel cs = false → subScan tryM fuel cs = cs := by
  intro fuel
  induction fuel with
  | zero =>
    intro cs hlen _
    cases cs with
    | nil => rfl
    | cons c rest => simp at hlen
  | succ f ih =>
    intro cs hlen hno
    cases cs with
    | nil => rfl
    | cons c rest =>
      cases htry : tryM (c :: rest) with
      | some val => simp [scanHas, htry] at hno
      | none =>
        simp only [scanHas, htry, Option.isSome_none, Bool.false_or] at hno
        simp only [subScan, htry]
        rw [ih rest (by simpa using Nat.le_of_succ_le_succ hlen) hno]

/-- Pointwise description of the sequential replacements of
`fix_chinese_punctuation`. -/
theorem fix_chinese_eq_map (s : List Char) :
    fix_chinese_punctuation s = s.map chineseChar := by
  simp only [fix_chinese_punctuation, cjkPairs, List.foldl_cons, List.foldl_nil, List.map_map]
  apply List.map_congr_left
  intro c _
  by_cases h1 : c = Char.ofNat 0xFF0C
  · subst h1; rfl
  by_cases h2 : c = Char.ofNat 0xFF1A
  · subst h2; rfl
  by_cases h3 : c = Char.ofNat 0xFF1B
  · subst h3; rfl
  by_cases h4 : c = Char.ofNat 0x201C
  · subst h4; rfl
  by_cases h5 : c = Char.ofNat 0x201D
  · subst h5; rfl
  by_cases h6 : c = Char.ofNat 0x2018
  · subst h6; rfl
  by_cases h7 : c = Char.ofNat 0x2019
  · subst h7; rfl
  by_cases h8 : c = Char.ofNat 0xFF08
  · subst h8; rfl
  by_cases h9 : c = Char.ofNat 0xFF09
  · subst h9; rfl
  by_cases h10 : c = Char.ofNat 0x3010
  · subst h10; rfl
  by_cases h11 : c = Char.ofNat 0x3011
  · subst h11; rfl
  by_cases h12 : c = Char.ofNat 0x300A
  · subst h12; rfl
  by_cases h13 : c = Char.ofNat 0x300B
  · subst h13; rfl
  simp [chineseChar, h1, h2, h3, h4, h5, h6, h7, h8, h9, h10, h11, h12, h13]

theorem chineseChar_idem (c : Char) : chineseChar (chineseChar c) = chineseChar c := by
  by_cases h1 : c = Char.ofNat 0xFF0C
  · subst h1; rfl
  by_cases h2 : c = Char.ofNat 0xFF1A
  · subst h2; rfl
  by_cases h3 : c = Char.ofNat 0xFF1B
  · subst h3; rfl
  by_cases h4 : c = Char.ofNat 0x201C
  · subst h4; rfl
  by_cases h5 : c = Char.ofNat 0x201D
  · subst h5; rfl
  by_cases h6 : c = Char.ofNat 0x2018
  · subst h6; rfl
  by_cases h7 : c = Char.ofNat 0x2019
  · subst h7; rfl
  by_cases h8 : c = Char.ofNat 0xFF08
  · subst h8; rfl
  by_cases h9 : c = Char.ofNat 0xFF09
  · subst h9; rfl
  by_cases h10 : c = Char.ofNat 0x3010
  · subst h10; rfl
  by_cases h11 : c = Char.ofNat 0x3011
  · subst h11; rfl
  by_cases h12 : c = Char.ofNat 0x300A
  · subst h12; rfl
  by_cases h13 : c = Char.ofNat 0x300B
  · subst h13; rfl
  have hc : chineseChar c = c := by
    simp [chineseChar, h1, h2, h3, h4, h5, h6, h7, h8, h9, h10, h11, h12, h13]
  rw [hc, hc]

/-- The selection of the normalize_tool_schema parser equals the first
strategy outcome that is a mapping with at least one key. -/
theorem parse_nt_characterization (s : List Char) (r1 r2 r3 r4 : Except Unit JsonVal) :
    parse_schema_string_nt s r1 r2 r3 r4 =
      if s = [] ∨ stripWs s = [] then none else firstNonEmptyDict [r1, r2, r3, r4] := by
  by_cases hs : s = []
  · simp [parse_schema_string_nt, hs]
  by_cases hw : stripWs s = []
  · simp [parse_schema_string_nt, hs, hw]
  simp only [hs, hw, or_self, if_false, or_false]
  cases r1 <;> cases r2 <;> cases r3 <;> cases r4 <;>
    simp [parse_schema_string_nt, firstNonEmptyDict, hs, hw]

theorem firstNonEmptyDict_sound :
    ∀ (rs : List (Except Unit JsonVal)) (v : JsonVal),
      firstNonEmptyDict rs = some v → isNonEmptyDict v = true := by
  intro rs
  induction rs with
  | nil => intro v h; simp [firstNonEmptyDict] at h
  | cons r rest ih =>
    intro v h
    cases r with
    | error e => exact ih v h
    | ok w =>
      by_cases hw : isNonEmptyDict w
      · simp [firstNonEmptyDict, hw] at h
        rw [← h]; exact hw
      · simp [firstNonEmptyDict, hw] at h
        exact ih v h

/-! ## Claim theorems -/

/-- C3 counterexample: the text of the well-formed JSON Schema
`\x7b"enum": ["a",\x7b"b": 1\x7d]\x7d` is changed by the structural repairs even after
discarding whitespace: the bracket-mismatch repair inserts a closing brace
after the string array element. -/
theorem c3_wellformed_changed :
    (structural_repairs exEnumArr).filter (fun c => !isWsChar c) ≠
      exEnumArr.filter (fun c => !isWsChar c) ∧
    structural_repairs exEnumArr =
      ("\x7b\"enum\": [\"a\"\x7d,\x7b\"b\": 1\x7d]\x7d").toList := by
  exact ⟨by decide, by decide⟩

/-- C3 (amended): each structural repair is a no-op whenever its trigger
pattern is absent from the text — no quote-comma-brace occurrence for the
bracket-mismatch repair, no quoted properties key followed by a colon and an
opening brace for the properties-closure repair, and no quoted combinator key
followed by a colon and a nonempty bracket for the anyOf/oneOf/allOf repair.
The stronger reading of the claim, that the repairs leave every well-formed
schema text unchanged up to whitespace, is refuted by `c3_wellformed_changed`. -/
theorem c3_repairs_noop_without_trigger :
    (∀ s : List Char, hasMatch tryBracket s = false → fix_bracket_mismatch s = s) ∧
    (∀ s : List Char, findPropsBrace s 0 = none → fix_properties_closure s = s) ∧
    (∀ s : List Char, hasMatch tryAnyof s = false → fix_anyof_structure s = s) := by
  refine ⟨?_, ?_, ?_⟩
  · intro s h
    exact subScan_of_no_match tryBracket s.length s le_rfl h
  · intro s h
    simp [fix_properties_closure, h]
  · intro s h
    exact subScan_of_no_match tryAnyof s.length s le_rfl h

/-- Closed instance of `c3_repairs_noop_without_trigger` at concrete inputs,
discharging each trigger-absence hypothesis by evaluation. -/
theorem c3_repairs_noop_witness :
    fix_bracket_mismatch ("status: ok").toList = ("status: ok").toList ∧
    fix_properties_closure ("status: ok").toList = ("status: ok").toList ∧
    fix_anyof_structure ("status: ok").toList = ("status: ok").toList :=
  ⟨c3_repairs_noop_without_trigger.1 ("status: ok").toList (by decide),
   c3_repairs_noop_without_trigger.2.1 ("status: ok").toList (by decide),
   c3_repairs_noop_without_trigger.2.2 ("status: ok").toList (by decide)⟩

/-- C8 counterexample: one application of the section 4.2 normalization maps
`,,]` to `,]`, and a second application maps that to `]`, so applying the
normalization twice differs from applying it once. -/
theorem c8_not_idempotent :
    normalize_then_fix (normalize_then_fix exCommas) ≠ normalize_then_fix exCommas ∧
    normalize_then_fix exCommas = (",]").toList ∧
    normalize_then_fix ((",]").toList) = ("]").toList := by
  refine ⟨by decide, by decide, by decide⟩

/-- C8 (amended): the full normalization (quote normalization followed by
fix_json_string) is idempotent on every fixed point of one application, and
its CJK-punctuation stage is idempotent unconditionally; full idempotence
fails, as `c8_not_idempotent` shows on `,,]`, where removing one trailing
comma exposes a new trailing-comma trigger for the second pass. -/
theorem c8_normalization_idempotence :
    (∀ s : List Char,
      fix_chinese_punctuation (fix_chinese_punctuation s) = fix_chinese_punctuation s) ∧
    (∀ s : List Char, normalize_then_fix s = s →
      normalize_then_fix (normalize_then_fix s) = normalize_then_fix s) := by
  constructor
  · intro s
    rw [fix_chinese_eq_map, fix_chinese_eq_map, List.map_map]
    apply List.map_congr_left
    intro c _
    exact chineseChar_idem c
  · intro s h
    rw [h, h]

/-- Closed instance of `c8_normalization_idempotence` at a concrete fixed
point of the normalization. -/
theorem c8_normalization_idempotence_witness :
    normalize_then_fix (normalize_then_fix (("]").toList)) =
      normalize_then_fix (("]").toList) :=
  c8_normalization_idempotence.2 (("]").toList) (by decide)

/-- C4 counterexample: with strategy outcomes (empty mapping, mapping with one
key, failure), the parser of src/schema_validation_accuracy.py returns the
empty mapping from strategy one, while the fall-through selection stated by
the claim would return the non-empty mapping of strategy two. -/
theorem c4_sva_accepts_empty :
    parse_schema_string (Except.ok (JsonVal.obj []))
        (Except.ok (JsonVal.obj [("a", JsonVal.num 1)])) (Except.error ()) =
      some (JsonVal.obj []) ∧
    claimFallThrough [Except.ok (JsonVal.obj []),
        Except.ok (JsonVal.obj [("a", JsonVal.num 1)]), Except.error ()] =
      some (JsonVal.obj [("a", JsonVal.num 1)]) ∧
    (some (JsonVal.obj []) : Option JsonVal) ≠
      some (JsonVal.obj [("a", JsonVal.num 1)]) := by
  refine ⟨rfl, rfl, ?_⟩
  simp

/-- C4 (amended): in src/normalize_tool_schema.py every strategy outcome that
is not a mapping with at least one key — in particular the empty mapping —
falls through to the next strategy, the parser returns exactly the first
outcome that is a non-empty mapping, and it never returns the empty mapping
(it returns null when all strategies fail); in the
src/schema_validation_accuracy.py copy a successful strategy outcome is
returned unconditionally, even when it is the empty mapping. -/
theorem c4_empty_mapping_fallthrough :
    (∀ (s : List Char) (r1 r2 r3 r4 : Except Unit JsonVal),
      parse_schema_string_nt s r1 r2 r3 r4 =
        if s = [] ∨ stripWs s = [] then none else firstNonEmptyDict [r1, r2, r3, r4]) ∧
    (∀ (s : List Char) (r1 r2 r3 r4 : Except Unit JsonVal) (v : JsonVal),
      parse_schema_string_nt s r1 r2 r3 r4 = some v → isNonEmptyDict v = true) ∧
    (∀ r2 r3 : Except Unit JsonVal,
      parse_schema_string (Except.ok (JsonVal.obj [])) r2 r3 = some (JsonVal.obj [])) := by
  refine ⟨parse_nt_characterization, ?_, fun _ _ => rfl⟩
  intro s r1 r2 r3 r4 v h
  rw [parse_nt_characterization] at h
  by_cases hg : s = [] ∨ stripWs s = []
  · simp [hg] at h
  · rw [if_neg hg] at h
    exact firstNonEmptyDict_sound [r1, r2, r3, r4] v h

/-- C5: the completion returns null on null, returns unchanged any schema with
a top-level type key, wraps a bare property map into a complete object schema
with all keys required and no additional properties, and in the per-block
catalog build the completion is applied to the output schema only, never to
the parameters schema. -/
theorem c5_complete_output_schema :
    complete_output_schema none = none ∧
    (∀ raw : List (String × JsonVal), (raw.map Prod.fst).contains "type" = true →
      complete_output_schema (some raw) = some raw) ∧
    (∀ raw : List (String × JsonVal), (raw.map Prod.fst).contains "type" = false →
      complete_output_schema (some raw) =
        some [("type", JsonVal.str "object"),
              ("properties", JsonVal.obj raw),
              ("required", JsonVal.arr ((raw.map Prod.fst).map JsonVal.str)),
              ("additionalProperties", JsonVal.bool false)]) ∧
    (∀ (block : List Char)
      (oracle : List Char → Except Unit JsonVal × Except Unit JsonVal × Except Unit JsonVal),
      parse_tool_block block oracle =
        (rawFieldSchema block ("Parameters:").toList oracle,
         complete_output_schema (asDict (rawFieldSchema block ("Output:").toList oracle)))) := by
  refine ⟨rfl, ?_, ?_, fun _ _ => rfl⟩
  · intro raw h
    simp only [complete_output_schema]
    rw [if_pos h]
  · intro raw h
    simp only [complete_output_schema]
    rw [if_neg (by rw [h]; exact Bool.false_ne_true)]

/-- Closed instance of `c5_complete_output_schema` at concrete schemas,
discharging the key-membership hypotheses by evaluation. -/
theorem c5_complete_output_schema_witness :
    complete_output_schema (some [("type", JsonVal.str "object")]) =
      some [("type", JsonVal.str "object")] ∧
    complete_output_schema (some [("code", JsonVal.obj [("type", JsonVal.str "int")])]) =
      some [("type", JsonVal.str "object"),
            ("properties", JsonVal.obj [("code", JsonVal.obj [("type", JsonVal.str "int")])]),
            ("required", JsonVal.arr [JsonVal.str "code"]),
            ("additionalProperties", JsonVal.bool false)] :=
  ⟨c5_complete_output_schema.2.1 [("type", JsonVal.str "object")] (by decide),
   c5_complete_output_schema.2.2.1 [("code", JsonVal.obj [("type", JsonVal.str "int")])]
     (by decide)⟩

/-- C9: completing an already completed output schema changes nothing, for
every schema value including null. -/
theorem c9_completion_idempotent :
    ∀ x : Option (List (String × JsonVal)),
      complete_output_schema (complete_output_schema x) = complete_output_schema x := by
  intro x
  cases x with
  | none => rfl
  | some raw =>
    cases hc : (raw.map Prod.fst).contains "type" with
    | true =>
      have h1 : complete_output_schema (some raw) = some raw := by
        simp only [complete_output_schema]
        rw [if_pos hc]
      rw [h1, h1]
    | false =>
      have h1 : complete_output_schema (some raw) =
          some [("type", JsonVal.str "object"),
                ("properties", JsonVal.obj raw),
                ("required", JsonVal.arr ((raw.map Prod.fst).map JsonVal.str)),
                ("additionalProperties", JsonVal.bool false)] := by
        simp only [complete_output_schema]
        rw [if_neg (by rw [hc]; exact Bool.false_ne_true)]
      rw [h1]
      rfl

/-- C7: the validator always returns a structured verdict; a null schema
yields the schema-undefined verdict before any library call, and an exception
raised inside validation is caught and rendered as a failed verdict with the
validation-exception kind, for every choice of set enumeration order. -/
theorem c7_validator_structured_verdicts :
    (∀ (pick : List ErrKind → ErrKind) (outcome : Except String (List VErr)),
      validate_against_schema pick none outcome =
        (false, some "Schema未定义或解析失败", some ErrKind.schema_undefined)) ∧
    (∀ (pick : List ErrKind → ErrKind) (s : JsonVal) (msg : String),
      validate_against_schema pick (some s) (Except.error msg) =
        (false, some msg, some ErrKind.validation_exception)) := by
  exact ⟨fun _ _ => rfl, fun _ _ _ => rfl⟩

/-- C6: a call whose tool name is not in the catalog gets the fixed verdict
with both validities false and the tool-not-found kind, and the verdict does
not depend on the validation oracles or on the set enumeration order, so no
schema validation is attempted. -/
theorem c6_tool_not_found (catalog : List (String × ToolSchemas)) (tool : String)
    (pick pick' : List ErrKind → ErrKind) (a o a' o' : Except String (List VErr))
    (h : lookupTool catalog tool = none) :
    processCall catalog tool pick a o =
      { tool_name := tool
        action_valid := false
        observation_valid := false
        action_error := none
        observation_error := none
        action_error_type := some ErrKind.tool_not_found
        observation_error_type := some ErrKind.tool_not_found
        reason := some "工具不存在于schema中" } ∧
    processCall catalog tool pick a o = processCall catalog tool pick' a' o' := by
  unfold processCall
  rw [h]
  exact ⟨rfl, rfl⟩

/-- Closed instance of `c6_tool_not_found` on the empty catalog, discharging
the lookup hypothesis by evaluation. -/
theorem c6_tool_not_found_witness :
    processCall [] "web_search" pickHeadKind (Except.ok []) (Except.ok []) =
      { tool_name := "web_search"
        action_valid := false
        observation_valid := false
        action_error := none
        observation_error := none
        action_error_type := some ErrKind.tool_not_found
        observation_error_type := some ErrKind.tool_not_found
        reason := some "工具不存在于schema中" } :=
  (c6_tool_not_found [] "web_search" pickHeadKind pickLastKind
    (Except.ok []) (Except.ok []) (Except.ok []) (Except.ok []) rfl).1

/-- Reduction of the validator on a non-empty violation list: the verdict is
false, the message joins all violation messages, and the kind is the chosen
element of the deduplicated category list. -/
theorem validate_ok_of_ne_nil (pick : List ErrKind → ErrKind) (s : JsonVal)
    (errs : List VErr) (h : errs ≠ []) :
    validate_against_schema pick (some s) (Except.ok errs) =
      (false, some (String.intercalate "; " (errs.map VErr.message)),
       some (pick ((errs.map (fun e => classifyValidator e.validator)).dedup))) := by
  cases errs with
  | nil => exact absurd rfl h
  | cons e0 rest =>
    have hk : (((e0 :: rest).map (fun e => classifyValidator e.validator)).dedup) ≠ [] := by
      rw [Ne, List.dedup_eq_nil]
      simp
    simp only [validate_against_schema]

/-- C2 counterexample: with two violations whose keywords are required and
type (in that order), two admissible enumeration orders of the Python
category set give different error kinds; under the order that enumerates the
set from its tail, the returned kind is TypeMismatch, not the
RequiredPropertyMissing that the first violation's keyword maps to. -/
theorem c2_set_order_dependent :
    (validate_against_schema pickLastKind (some (JsonVal.obj []))
        (Except.ok [⟨"required", "m1"⟩, ⟨"type", "m2"⟩])).2.2 =
      some ErrKind.type_mismatch ∧
    (validate_against_schema pickHeadKind (some (JsonVal.obj []))
        (Except.ok [⟨"required", "m1"⟩, ⟨"type", "m2"⟩])).2.2 =
      some ErrKind.required_property_missing ∧
    classifyValidator "required" = ErrKind.required_property_missing ∧
    ErrKind.type_mismatch ≠ ErrKind.required_property_missing ∧
    pickLastKind [ErrKind.required_property_missing, ErrKind.type_mismatch] ∈
      [ErrKind.required_property_missing, ErrKind.type_mismatch] := by
  refine ⟨by decide, by decide, by decide, by decide, by decide⟩

/-- C2 (amended): on violations the validator returns ok false and an error
kind that is the mapped category of some violation in the list (the mapping
as the claim states it); when every violation maps to one category — in
particular when there is a single violation — that category is returned, so
the kind follows the first violation's keyword exactly in that case. Which
category is returned when several distinct categories occur depends on the
enumeration order of a Python set and is not determined by the source. -/
theorem c2_error_kind_of_some_violation :
    (∀ (pick : List ErrKind → ErrKind) (s : JsonVal) (errs : List VErr),
      (∀ l : List ErrKind, l ≠ [] → pick l ∈ l) → errs ≠ [] →
      (validate_against_schema pick (some s) (Except.ok errs)).1 = false ∧
      ∃ e ∈ errs, (validate_against_schema pick (some s) (Except.ok errs)).2.2 =
        some (classifyValidator e.validator)) ∧
    (∀ (pick : List ErrKind → ErrKind) (s : JsonVal) (errs : List VErr) (c : ErrKind),
      (∀ l : List ErrKind, l ≠ [] → pick l ∈ l) → errs ≠ [] →
      (∀ e ∈ errs, classifyValidator e.validator = c) →
      (validate_against_schema pick (some s) (Except.ok errs)).2.2 = some c) := by
  constructor
  · intro pick s errs hpick hne
    rw [validate_ok_of_ne_nil pick s errs hne]
    refine ⟨rfl, ?_⟩
    have hk : ((errs.map (fun e => classifyValidator e.validator)).dedup) ≠ [] := by
      rw [Ne, List.dedup_eq_nil, List.map_eq_nil_iff]
      exact hne
    have hmem := hpick _ hk
    have hmem2 : pick ((errs.map (fun e => classifyValidator e.validator)).dedup) ∈
        errs.map (fun e => classifyValidator e.validator) := List.mem_dedup.mp hmem
    obtain ⟨e, he, heq⟩ := List.mem_map.mp hmem2
    exact ⟨e, he, by rw [← heq]⟩
  · intro pick s errs c hpick hne hall
    rw [validate_ok_of_ne_nil pick s errs hne]
    have hk : ((errs.map (fun e => classifyValidator e.validator)).dedup) ≠ [] := by
      rw [Ne, List.dedup_eq_nil, List.map_eq_nil_iff]
      exact hne
    have hmem2 : pick ((errs.map (fun e => classifyValidator e.validator)).dedup) ∈
        errs.map (fun e => classifyValidator e.validator) :=
      List.mem_dedup.mp (hpick _ hk)
    obtain ⟨e, he, heq⟩ := List.mem_map.mp hmem2
    rw [← heq, hall e he]

/-- Closed instance of `c2_error_kind_of_some_violation` at a single
violation, discharging the choice-function and non-emptiness hypotheses. -/
theorem c2_error_kind_witness :
    (validate_against_schema pickHeadKind (some (JsonVal.obj []))
        (Except.ok [⟨"required", "m1"⟩])).2.2 = some ErrKind.required_property_missing :=
  c2_error_kind_of_some_violation.2 pickHeadKind (JsonVal.obj []) [⟨"required", "m1"⟩]
    ErrKind.required_property_missing
    (fun l hl => by
      cases l with
      | nil => exact absurd rfl hl
      | cons x xs => exact List.mem_cons_self x xs)
    (by decide) (by decide)

/-- Association-list lookup succeeds on every key the list carries. -/
theorem lookup_of_mem_keys (l : List (String × String)) (k : String)
    (h : k ∈ l.map Prod.fst) : ∃ v, List.lookup k l = some v := by
  induction l with
  | nil => simp at h
  | cons p rest ih =>
    obtain ⟨k1, v1⟩ := p
    simp only [List.map_cons, List.mem_cons] at h
    by_cases hk : k = k1
    · exact ⟨v1, by simp [List.lookup, hk]⟩
    · obtain ⟨v, hv⟩ := ih (h.resolve_left hk)
      exact ⟨v, by simp [List.lookup, beq_eq_false_iff_ne.mpr hk, hv]⟩

theorem sameVal_comm (a b : List (String × String)) (k : String) :
    sameVal a b k = sameVal b a k := by
  unfold sameVal
  cases h1 : List.lookup k a with
  | none =>
    cases h2 : List.lookup k b with
    | none => rfl
    | some v2 => rfl
  | some v1 =>
    cases h2 : List.lookup k b with
    | none => rfl
    | some v2 =>
      show (v1 == v2) = (v2 == v1)
      by_cases h : v1 = v2
      · subst h; rfl
      · rw [beq_eq_false_iff_ne.mpr h, beq_eq_false_iff_ne.mpr (Ne.symm h)]

theorem param_similarity_bounds (a b : List (String × String)) :
    0 ≤ calculate_param_similarity a b ∧ calculate_param_similarity a b ≤ 1 := by
  simp only [calculate_param_similarity]
  split_ifs with h1 h2 h3
  · exact ⟨zero_le_one, le_refl 1⟩
  · exact ⟨le_refl 0, zero_le_one⟩
  · exact ⟨zero_le_one, le_refl 1⟩
  · constructor
    · apply div_nonneg <;> exact Nat.cast_nonneg _
    · rw [div_le_one]
      · exact_mod_cast List.length_filter_le _ _
      · exact_mod_cast List.length_pos.mpr h3

theorem param_similarity_comm (a b : List (String × String)) :
    calculate_param_similarity a b = calculate_param_similarity b a := by
  by_cases ha : a = [] <;> by_cases hb : b = []
  · subst ha; subst hb; rfl
  · subst ha; simp [calculate_param_similarity, hb]
  · subst hb; simp [calculate_param_similarity, ha]
  · simp only [calculate_param_similarity]
    rw [if_neg (show ¬(a = [] ∧ b = []) from fun h => ha h.1),
        if_neg (show ¬(a = [] ∨ b = []) from fun h => h.elim ha hb),
        if_neg (show ¬(b = [] ∧ a = []) from fun h => hb h.1),
        if_neg (show ¬(b = [] ∨ a = []) from fun h => h.elim hb ha)]
    have hperm : List.Perm ((a.map Prod.fst ++ b.map Prod.fst).dedup)
        ((b.map Prod.fst ++ a.map Prod.fst).dedup) :=
      (List.perm_append_comm).dedup
    have hlen : ((a.map Prod.fst ++ b.map Prod.fst).dedup).length =
        ((b.map Prod.fst ++ a.map Prod.fst).dedup).length := hperm.length_eq
    have hfun : (fun k => sameVal b a k) = (fun k => sameVal a b k) :=
      funext (fun k => (sameVal_comm a b k).symm)
    have hfil : (((a.map Prod.fst ++ b.map Prod.fst).dedup).filter
          (fun k => sameVal a b k)).length =
        (((b.map Prod.fst ++ a.map Prod.fst).dedup).filter
          (fun k => sameVal b a k)).length := by
      rw [hfun]
      exact (hperm.filter _).length_eq
    by_cases hd : (a.map Prod.fst ++ b.map Prod.fst).dedup = []
    · have hd2 : (b.map Prod.fst ++ a.map Prod.fst).dedup = [] :=
        List.length_eq_zero.mp (by rw [← hlen, hd]; rfl)
      rw [if_pos hd, if_pos hd2]
    · have hd2 : (b.map Prod.fst ++ a.map Prod.fst).dedup ≠ [] := fun h =>
        hd (List.length_eq_zero.mp (by rw [hlen, h]; rfl))
      rw [if_neg hd, if_neg hd2, hfil, hlen]

theorem param_similarity_self (a : List (String × String)) :
    calculate_param_similarity a a = 1 := by
  by_cases ha : a = []
  · subst ha; rfl
  · simp only [calculate_param_similarity]
    rw [if_neg (show ¬(a = [] ∧ a = []) from fun h => ha h.1),
        if_neg (show ¬(a = [] ∨ a = []) from fun h => h.elim ha ha)]
    have hd : (a.map Prod.fst ++ a.map Prod.fst).dedup ≠ [] := by
      rw [Ne, List.dedup_eq_nil, List.append_eq_nil]
      intro h
      exact ha (List.map_eq_nil_iff.mp h.1)
    rw [if_neg hd]
    have hall : ∀ k ∈ (a.map Prod.fst ++ a.map Prod.fst).dedup, sameVal a a k = true := by
      intro k hk
      have hk2 : k ∈ a.map Prod.fst := by
        have := List.mem_dedup.mp hk
        simpa using this
      obtain ⟨v, hv⟩ := lookup_of_mem_keys a k hk2
      unfold sameVal
      rw [hv]
      exact beq_self_eq_true v
    rw [List.filter_eq_self.mpr hall]
    exact div_self (Nat.cast_ne_zero.mpr (fun hz =>
      hd (List.length_eq_zero.mp hz)))

/-- C10: the parameter similarity lies in the closed unit interval, is
symmetric in its two argument dicts, and equals one on identical argument
dicts. -/
theorem c10_param_similarity :
    ∀ args1 args2 : List (String × String),
      0 ≤ calculate_param_similarity args1 args2 ∧
      calculate_param_similarity args1 args2 ≤ 1 ∧
      calculate_param_similarity args1 args2 = calculate_param_similarity args2 args1 ∧
      calculate_param_similarity args1 args1 = 1 := fun a b =>
  ⟨(param_similarity_bounds a b).1, (param_similarity_bounds a b).2,
   param_similarity_comm a b, param_similarity_self a⟩

/-- The imperative scanner loop of extract_balanced_braces computes the same
answer as the one-step specification machine: the walk stops exactly at the
first closing position of the specification state machine. -/
theorem ebbLoop_eq_specClose :
    ∀ (cs : List Char) (st : ScanSt) (i : Nat),
      ebbLoop cs st.count st.inStr st.esc i = specClose cs st i := by
  intro cs
  induction cs with
  | nil => intro st i; rfl
  | cons c rest ih =>
    intro st i
    obtain ⟨count, inStr, esc⟩ := st
    cases esc with
    | true =>
      have h1 : ebbLoop (c :: rest) count inStr true i =
          ebbLoop rest count inStr false (i + 1) := by
        simp [ebbLoop]
      have h2 : specClose (c :: rest) ⟨count, inStr, true⟩ i =
          specClose rest ⟨count, inStr, false⟩ (i + 1) := by
        simp [specClose, closesHere, scanStep]
      rw [h1, h2]
      exact ih ⟨count, inStr, false⟩ (i + 1)
    | false =>
      by_cases hbsl : c = bslC
      · subst hbsl
        have hx : (bslC == cbrC) = false := by decide
        have h1 : ebbLoop (bslC :: rest) count inStr false i =
            ebbLoop rest count inStr true (i + 1) := by
          simp [ebbLoop]
        have h2 : specClose (bslC :: rest) ⟨count, inStr, false⟩ i =
            specClose rest ⟨count, inStr, true⟩ (i + 1) := by
          simp [specClose, closesHere, scanStep, hx]
        rw [h1, h2]
        exact ih ⟨count, inStr, true⟩ (i + 1)
      · cases inStr with
        | none =>
          by_cases hq : c = dqC ∨ c = sqC
          · have hcbr : (c == cbrC) = false :=
              beq_eq_false_iff_ne.mpr (by rcases hq with h | h <;> subst h <;> decide)
            have h1 : ebbLoop (c :: rest) count none false i =
                ebbLoop rest count (some c) false (i + 1) := by
              simp [ebbLoop, hbsl, hq]
            have h2 : specClose (c :: rest) ⟨count, none, false⟩ i =
                specClose rest ⟨count, some c, false⟩ (i + 1) := by
              simp [specClose, closesHere, scanStep, hcbr, hbsl, hq]
            rw [h1, h2]
            exact ih ⟨count, some c, false⟩ (i + 1)
          · by_cases hobr : c = obrC
            · subst hobr
              have hx : (obrC == cbrC) = false := by decide
              have hxb : ¬(obrC = bslC) := by decide
              have hxc : ¬(obrC = cbrC) := by decide
              have h1 : ebbLoop (obrC :: rest) count none false i =
                  ebbLoop rest (count + 1) none false (i + 1) := by
                simp [ebbLoop, hq, hxb]
              have h2 : specClose (obrC :: rest) ⟨count, none, false⟩ i =
                  specClose rest ⟨count + 1, none, false⟩ (i + 1) := by
                simp [specClose, closesHere, scanStep, hx, hxb, hxc, hq]
              rw [h1, h2]
              exact ih ⟨count + 1, none, false⟩ (i + 1)
            · by_cases hcbr : c = cbrC
              · subst hcbr
                have hxb : ¬(cbrC = bslC) := by decide
                have hxo : ¬(cbrC = obrC) := by decide
                by_cases hcount : count = 1
                · subst hcount
                  have h1 : ebbLoop (cbrC :: rest) 1 none false i = some i := by
                    simp [ebbLoop, hq, hxb, hxo]
                  have h2 : specClose (cbrC :: rest) ⟨1, none, false⟩ i = some i := by
                    simp [specClose, closesHere]
                  rw [h1, h2]
                · have hsub : ¬((count : Int) - 1 = 0) := by omega
                  have hne : ((count : Int) == 1) = false := beq_eq_false_iff_ne.mpr hcount
                  have h1 : ebbLoop (cbrC :: rest) count none false i =
                      ebbLoop rest (count - 1) none false (i + 1) := by
                    simp [ebbLoop, hq, hxb, hxo, hsub]
                  have h2 : specClose (cbrC :: rest) ⟨count, none, false⟩ i =
                      specClose rest ⟨count - 1, none, false⟩ (i + 1) := by
                    simp [specClose, closesHere, scanStep, hne, hxb, hxo, hq, hcount]
                  rw [h1, h2]
                  exact ih ⟨count - 1, none, false⟩ (i + 1)
              · have hcbrb : (c == cbrC) = false := beq_eq_false_iff_ne.mpr hcbr
                have h1 : ebbLoop (c :: rest) count none false i =
                    ebbLoop rest count none false (i + 1) := by
                  simp [ebbLoop, hq, hobr, hcbr, hbsl]
                have h2 : specClose (c :: rest) ⟨count, none, false⟩ i =
                    specClose rest ⟨count, none, false⟩ (i + 1) := by
                  simp [specClose, closesHere, scanStep, hcbrb, hq, hobr, hcbr, hbsl]
                rw [h1, h2]
                exact ih ⟨count, none, false⟩ (i + 1)
        | some q =>
          by_cases hcq : c = q
          · subst hcq
            have h1 : ebbLoop (c :: rest) count (some c) false i =
                ebbLoop rest count none false (i + 1) := by
              simp [ebbLoop, hbsl]
            have h2 : specClose (c :: rest) ⟨count, some c, false⟩ i =
                specClose rest ⟨count, none, false⟩ (i + 1) := by
              simp [specClose, closesHere, scanStep, hbsl]
            rw [h1, h2]
            exact ih ⟨count, none, false⟩ (i + 1)
          · have h1 : ebbLoop (c :: rest) count (some q) false i =
                ebbLoop rest count (some q) false (i + 1) := by
              simp [ebbLoop, hbsl, hcq]
            have h2 : specClose (c :: rest) ⟨count, some q, false⟩ i =
                specClose rest ⟨count, some q, false⟩ (i + 1) := by
              simp [specClose, closesHere, scanStep, hbsl, hcq]
            rw [h1, h2]
            exact ih ⟨count, some q, false⟩ (i + 1)

/-- The specification machine finds exactly the first index (relative to its
start offset) whose character closes the balanced span. -/
theorem specClose_some_iff :
    ∀ (cs : List Char) (st : ScanSt) (i j : Nat),
      specClose cs st i = some j ↔
        ∃ k, j = i + k ∧ closesAtB st cs k = true ∧
          ∀ m, m < k → closesAtB st cs m = false := by
  intro cs
  induction cs with
  | nil =>
    intro st i j
    simp [specClose, closesAtB]
  | cons c rest ih =>
    intro st i j
    have h0 : closesAtB st (c :: rest) 0 = closesHere st c := rfl
    have hsucc : ∀ k, closesAtB st (c :: rest) (k + 1) = closesAtB (scanStep st c) rest k :=
      fun k => rfl
    simp only [specClose]
    split_ifs with hc
    · constructor
      · intro hj
        injection hj with hj
        refine ⟨0, by omega, by rw [h0]; exact hc, fun m hm => absurd hm (Nat.not_lt_zero m)⟩
      · rintro ⟨k, hk, hclose, hmin⟩
        cases k with
        | zero => simp [hk]
        | succ m =>
          exfalso
          have := hmin 0 (Nat.succ_pos m)
          rw [h0, hc] at this
          exact absurd this (by decide)
    · rw [ih (scanStep st c) (i + 1) j]
      constructor
      · rintro ⟨kk, hj, hcl, hmin⟩
        refine ⟨kk + 1, by omega, by rw [hsucc]; exact hcl, ?_⟩
        intro m hm
        cases m with
        | zero => rw [h0]; exact Bool.eq_false_iff.mpr hc
        | succ mm =>
          rw [hsucc]
          exact hmin mm (by omega)
      · rintro ⟨k, hj, hcl, hmin⟩
        cases k with
        | zero =>
          exfalso
          rw [h0] at hcl
          exact hc hcl
        | succ kk =>
          refine ⟨kk, by omega, by rw [hsucc] at hcl; exact hcl, ?_⟩
          intro m hm
          have := hmin (m + 1) (by omega)
          rw [hsucc] at this
          exact this

/-- Starting the specification machine at offset b shifts every reported
index by b. -/
theorem specClose_shift (cs : List Char) (st : ScanSt) (b : Nat) :
    specClose cs st b = (specClose cs st 0).map (· + b) := by
  cases h : specClose cs st 0 with
  | none =>
    cases h2 : specClose cs st b with
    | none => rfl
    | some j =>
      obtain ⟨k, hk, hcl, hmin⟩ := (specClose_some_iff cs st b j).mp h2
      have hzero : specClose cs st 0 = some k :=
        (specClose_some_iff cs st 0 k).mpr ⟨k, by omega, hcl, hmin⟩
      rw [h] at hzero
      cases hzero
  | some k =>
    obtain ⟨kk, hkk, hcl, hmin⟩ := (specClose_some_iff cs st 0 k).mp h
    have hke : k = kk := by omega
    subst hke
    have hb : specClose cs st b = some (b + k) :=
      (specClose_some_iff cs st b (b + k)).mpr ⟨k, rfl, hcl, hmin⟩
    rw [hb]
    simp [Nat.add_comm]

/-- The scanner embedding equals the specification contract. -/
theorem extract_eq_spec (text : List Char) (start : Nat) :
    extract_balanced_braces text start = specScan text start := by
  unfold extract_balanced_braces specScan
  cases hf : findFrom text obrC start with
  | none => rfl
  | some b =>
    have h1 : ebbLoop (text.drop b) 0 none false b = specClose (text.drop b) initScanSt b :=
      ebbLoop_eq_specClose (text.drop b) initScanSt b
    dsimp only
    rw [h1, specClose_shift (text.drop b) initScanSt b]
    simp only [firstCloseOffset]
    cases hfc : specClose (text.drop b) initScanSt 0 with
    | none => rfl
    | some k =>
      simp only [Option.map_some']
      have hslice : (text.take (k + b + 1)).drop b = (text.drop b).take (k + 1) := by
        rw [List.drop_take]
        congr 1
        omega
      rw [hslice]

/-- C1: the brace/string scanner returns the span that starts at the first
opening brace found at or after the offset and ends at the first position
where the nesting depth returns to zero, with depth tracked only outside
string literals and a backslash suppressing the following character's lexical
role; the first closing position is characterized as least; on the input of
the specification's scanner-correctness sentence, both source copies of the
scanner return the entire string, the closing brace inside the string literal
not being counted. -/
theorem c1_brace_scanner :
    (∀ (text : List Char) (start : Nat),
      extract_balanced_braces text start = specScan text start) ∧
    (∀ (cs : List Char) (k : Nat),
      firstCloseOffset cs = some k ↔
        (closesAtB initScanSt cs k = true ∧
         ∀ m, m < k → closesAtB initScanSt cs m = false)) ∧
    extract_balanced_braces exScanner 0 = some exScanner ∧
    extract_balanced_braces_nt exScanner 0 true = some exScanner := by
  refine ⟨extract_eq_spec, ?_, by decide, by decide⟩
  intro cs k
  have h := specClose_some_iff cs initScanSt 0 k
  simp only [firstCloseOffset]
  rw [h]
  constructor
  · rintro ⟨kk, hkk, hcl, hmin⟩
    have : k = kk := by omega
    subst this
    exact ⟨hcl, hmin⟩
  · rintro ⟨hcl, hmin⟩
    exact ⟨k, by omega, hcl, hmin⟩
